import Mathlib

/-!
Verification of the TerminalMusicPlayer audio core against its specification.

The Rust sources are shallowly embedded in Lean:

* `src/audio.rs` — the streaming decoder (`SymphoniaSource`): its per-pull
  decode loop `decode_more`, the priming loop `prime`, the start-offset skip
  budget computed in `try_new`, and the `Iterator::next` sample-delivery loop.
* `src/player/mod.rs` — the playback state machine (`Player`): `position`,
  `start_track`, `is_track_finished`, shuffle/navigation/deletion.
* `src/util.rs` — `make_shuffled_order` (Fisher–Yates with the current track
  pinned first).
* `src/audio/output.rs` — the output engine: the shared generation-tagged
  state, the fill thread, and the realtime callbacks `write_data`,
  `write_data_i16`, `write_data_u16`.

Modelling conventions: Rust `u64`/`u32`/`usize` quantities are `Nat`
(with explicit `% 2 ^ 64` where a Rust `as u64` cast truncates);
`Duration` is a `Nat` of nanoseconds; `f32`/`f64` sample and gain
arithmetic is modelled exactly over `ℚ`; fallible calls return `Option` or
`Except`; I/O results (probing a file, the packet stream, the random number
generator) are passed in as explicit oracle parameters.
-/

/-! ## Decoder: packet/decode events (`src/audio.rs`, `decode_more`)

One `DecEvent` is the outcome of one `format.next_packet()` call together
with (when a packet is obtained) the outcome of decoding it.  The event list
is the oracle for the underlying media stream; an exhausted list behaves as
the end of the stream (`next_packet` returns an I/O error, treated as EOF).
-/

inductive DecEvent (α : Type) : Type where
  /-- `next_packet` returned `IoError` (treated as EOF). -/
  | ioErr : DecEvent α
  /-- `next_packet` returned `ResetRequired`: reset the decoder, retry. -/
  | resetReq : DecEvent α
  /-- `next_packet` returned some other error: fail. -/
  | otherErr : DecEvent α
  /-- packet belongs to a different track: skipped. -/
  | wrongTrack : DecEvent α
  /-- packet decoded successfully into an interleaved chunk of samples. -/
  | decOk (chunk : List α) : DecEvent α
  /-- `decoder.decode` returned `DecodeError`: bad frame. -/
  | decErr : DecEvent α
  /-- `decoder.decode` returned `ResetRequired`: reset, retry. -/
  | decResetReq : DecEvent α
  /-- `decoder.decode` returned some other error: fail. -/
  | decOtherErr : DecEvent α

deriving instance DecidableEq for DecEvent

/-- Result of one `decode_more` call: `ok = some chunk` when a packet was
decoded (the chunk is appended to the fifo by the caller in this model;
the Rust code extends `self.fifo` in place), `ok = none` when the call
returned `Err`.  `errCount` is the value of `consecutive_decode_errors`
after the call, and `rest` the unconsumed remainder of the packet stream. -/
structure DecRes (α : Type) : Type where
  ok : Option (List α)
  errCount : ℕ
  rest : List (DecEvent α)
deriving DecidableEq

/-- `SymphoniaSource::decode_more` (src/audio.rs lines 176–233), as a function
of the consecutive-error counter and the packet stream.  The Rust counter is a
`u32` updated with `saturating_add`; the saturation bound (2^32 − 1) is
unreachable here because every path that grows the counter past 1,000 returns
`Err` immediately, so a plain `ℕ` counter has identical guard behavior. -/
def decodeMore {α : Type} : ℕ → List (DecEvent α) → DecRes α
  | c, [] => ⟨none, c, []⟩
  | c, DecEvent.ioErr :: rest => ⟨none, c, rest⟩
  | c, DecEvent.resetReq :: rest => decodeMore c rest
  | c, DecEvent.otherErr :: rest => ⟨none, c, rest⟩
  | c, DecEvent.wrongTrack :: rest => decodeMore c rest
  | _c, DecEvent.decOk chunk :: rest => ⟨some chunk, 0, rest⟩
  | c, DecEvent.decErr :: rest =>
      if c + 1 > 1000 then ⟨none, c + 1, rest⟩ else decodeMore (c + 1) rest
  | c, DecEvent.decResetReq :: rest => decodeMore c rest
  | c, DecEvent.decOtherErr :: rest => ⟨none, c, rest⟩

/-! ## Decoder: priming (`src/audio.rs`, `prime`)

`prime` repeatedly calls `decode_more` while the fifo is empty, at most 250
times (`packets_seen`), ignoring individual errors; if the fifo is still
empty afterwards it fails with "no decodable audio frames".
-/

/-- State after the `prime` while-loop: accumulated fifo, error counter,
remaining packet stream, and the number of `decode_more` invocations made. -/
structure PrimeRes (α : Type) : Type where
  fifo : List α
  errCount : ℕ
  rest : List (DecEvent α)
  calls : ℕ
deriving DecidableEq

/-- The `while self.fifo.is_empty() && packets_seen < 250` loop of `prime`,
with `fuel` the remaining iteration budget (`250 - packets_seen`). -/
def primeGo {α : Type} : ℕ → List α → ℕ → List (DecEvent α) → PrimeRes α
  | 0, fifo, c, evs => ⟨fifo, c, evs, 0⟩
  | fuel + 1, fifo, c, evs =>
      if fifo.isEmpty then
        let r := decodeMore c evs
        let r' := primeGo fuel (fifo ++ (r.ok.getD [])) r.errCount r.rest
        ⟨r'.fifo, r'.errCount, r'.rest, r'.calls + 1⟩
      else ⟨fifo, c, evs, 0⟩

/-- `SymphoniaSource::prime` (src/audio.rs lines 131–148): run the bounded
loop from an empty-at-entry... in fact from whatever fifo the session has
(at `try_new` it is empty) and fail if no samples were obtained. -/
def prime {α : Type} (fifo : List α) (c : ℕ) (evs : List (DecEvent α)) :
    Option (PrimeRes α) :=
  let r := primeGo 250 fifo c evs
  if r.fifo.isEmpty then none else some r

/-! ## Player: `is_track_finished` (`src/player/mod.rs` lines 224–226,
`src/audio/output.rs` lines 75–77)

`AudioControl::take_finished` is `finished.swap(false)`; `is_track_finished`
is `state == Playing && take_finished()` with Rust's short-circuiting `&&`
(the flag is consumed only when the player is in the `Playing` state).
-/

inductive PlayState : Type where
  | stopped : PlayState
  | playing : PlayState
  | paused : PlayState
deriving DecidableEq

/-- `AudioControl::take_finished`: returns the flag and stores `false`. -/
def takeFinished (finished : Bool) : Bool × Bool :=
  (finished, false)

/-- `Player::is_track_finished`, returning (result, finished-flag after the
call).  Short-circuit: the swap happens only in state `Playing`. -/
def isTrackFinished (state : PlayState) (finished : Bool) : Bool × Bool :=
  if state = PlayState.playing then takeFinished finished
  else (false, finished)

/-- A sequence of `is_track_finished` calls (the player's state at each call
given by the list), threading the finished flag; returns the list of results
and the final flag. -/
def runFinishedCalls : List PlayState → Bool → List Bool × Bool
  | [], flag => ([], flag)
  | s :: rest, flag =>
      let r := isTrackFinished s flag
      let t := runFinishedCalls rest r.2
      (r.1 :: t.1, t.2)

/-! ## Decoder: sample delivery (`src/audio.rs`, `Iterator::next`)

For the sample-delivery loop the decode results are abstracted to the list
of chunks that successive successful `decode_more` calls append to the fifo
(`chunks`); an exhausted chunk list is a failing `decode_more` (end of
stream or unrecoverable error).  `fileChunks` is what a fresh reopen of the
same file would decode (used by `reopen_for_loop`); a `none` value means the
reopen itself fails.
-/

structure SrcState (α : Type) : Type where
  fifo : List α
  skip : ℕ
  chunks : List (List α)
  loopEnabled : Bool
  fileChunks : Option (List (List α))
deriving DecidableEq

/-- `<SymphoniaSource as Iterator>::next` iterated to exhaustion
(src/audio.rs lines 239–274): each recursion step is one iteration of the
`loop`; a produced sample is consed onto the continuation.  `fuel` bounds
the number of loop iterations (the real loop needs no fuel because the
packet stream is finite; every theorem below supplies enough fuel for the
run to complete). -/
def srcRun {α : Type} : ℕ → SrcState α → List α
  | 0, _ => []
  | fuel + 1, st =>
      -- "Ensure we have data."
      match st.fifo with
      | [] =>
        match st.chunks with
        | [] =>
          -- decode_more failed: loop-reopen or end of sequence.
          if st.loopEnabled then
            match st.fileChunks with
            | some fc =>
                -- reopen_for_loop: cleared fifo, skip := 0, errors := 0.
                srcRun fuel ⟨[], 0, fc, st.loopEnabled, st.fileChunks⟩
            | none => []
          else []
        | c :: cs =>
            srcRun fuel ⟨c, st.skip, cs, st.loopEnabled, st.fileChunks⟩
      | _ :: _ =>
        -- "Apply initial skip": pop while skip > 0 and the fifo is nonempty.
        let d := min st.skip st.fifo.length
        let fifo' := st.fifo.drop d
        let skip' := st.skip - d
        if skip' > 0 then
          srcRun fuel ⟨fifo', skip', st.chunks, st.loopEnabled, st.fileChunks⟩
        else
          match fifo' with
          | [] => srcRun fuel ⟨[], 0, st.chunks, st.loopEnabled, st.fileChunks⟩
          | y :: fr =>
              y :: srcRun fuel ⟨fr, 0, st.chunks, st.loopEnabled, st.fileChunks⟩

/-- The skip budget computed once in `SymphoniaSource::try_new`
(src/audio.rs lines 120–124): `(start_pos.as_secs_f64() * sample_rate)
.max(0.0).round() as u64` then `saturating_mul(channels as u64)`.
The `f64` arithmetic is modelled exactly over `ℚ`; `round` on `ℚ` rounds
half up, which agrees with Rust's round-half-away-from-zero on the
non-negative values produced here (`start_pos` is a `Duration`, hence
non-negative). -/
def tryNewSkipSamples (startSecs : ℚ) (sampleRate : ℕ) (channels : ℕ) : ℕ :=
  (round (max (startSecs * (sampleRate : ℚ)) 0)).toNat * channels

/-- Fuel sufficient to run `srcRun` to completion on a non-looping state. -/
def srcFuel {α : Type} (st : SrcState α) : ℕ :=
  st.skip + st.fifo.length + 2 * st.chunks.length + st.chunks.flatten.length + 2

/-! ## Player state (`src/player/mod.rs`)

Track paths and display metadata are abstracted to `ℕ` identifiers.
`Instant` and `Duration` values are nanosecond counts (`ℕ`); Rust's
saturating `Duration` subtraction is `ℕ` subtraction.
-/

/-- Best-effort probed metadata (`meta::TrackMeta`): an abstract display tag
and an optional duration in nanoseconds. -/
structure TrackMetaM : Type where
  tag : ℕ
  duration : Option ℕ
deriving DecidableEq

instance : Inhabited TrackMetaM := ⟨⟨0, none⟩⟩

/-- The `Player` fields relevant to playback state (audio handles omitted;
commands sent to the engine are returned explicitly by the operations). -/
structure PlayerM : Type where
  tracks : List ℕ
  current : ℕ
  selected : ℕ
  playOrder : List ℕ
  playPos : ℕ
  shuffle : Bool
  state : PlayState
  volumeGain : ℚ
  basePos : ℕ
  startedAt : Option ℕ
  pausedAt : Option ℕ
  totalPause : ℕ
  totalDuration : Option ℕ
  nowMeta : TrackMetaM
  loopCurrent : Bool
deriving DecidableEq

/-- Nanoseconds per millisecond (`Duration::as_millis` truncates to this). -/
def nsPerMs : ℕ := 1000000

/-- Modulus of a Rust `u64` (`as u64` casts truncate to this). -/
def u64Mod : ℕ := 2 ^ 64

/-- The `match self.state` part of `Player::position` (src/player/mod.rs
lines 270–289).  `Instant::elapsed`/`saturating_duration_since` and
`saturating_sub` are `ℕ` subtraction. -/
def rawPosition (p : PlayerM) (now : ℕ) : ℕ :=
  match p.state with
  | PlayState.stopped => 0
  | PlayState.paused =>
      match p.startedAt, p.pausedAt with
      | some s, some q => p.basePos + ((q - s) - p.totalPause)
      | _, _ => p.basePos
  | PlayState.playing =>
      match p.startedAt with
      | some s => p.basePos + ((now - s) - p.totalPause)
      | none => p.basePos

/-- `Player::position` (src/player/mod.rs lines 269–303).  The loop-wrap
branch computes `ms % total_ms` on `u64` millisecond counts; when
`total_ms = 0` (a positive total duration below one millisecond, or one
whose millisecond count is a multiple of 2^64) the Rust expression
`ms % total_ms` panics (integer remainder by zero), modelled as `none`. -/
def position (p : PlayerM) (now : ℕ) : Option ℕ :=
  let pos := rawPosition p now
  if p.loopCurrent then
    match p.totalDuration with
    | some total =>
        if 0 < total then
          let ms := (pos / nsPerMs) % u64Mod
          let totalMs := (total / nsPerMs) % u64Mod
          if totalMs = 0 then none
          else some ((ms % totalMs) * nsPerMs)
        else some pos
    | none => some pos
  else some pos

/-- Commands `Player` methods issue to the output engine, in order. -/
inductive EngCmd : Type where
  | setGain (g : ℚ) : EngCmd
  | setPaused (b : Bool) : EngCmd
  | setSource : EngCmd
  | stopNow : EngCmd
deriving DecidableEq

/-- `Player::start_track` (src/player/mod.rs lines 166–192).  `meta` is the
oracle for `meta::probe_track_meta(..).unwrap_or_default()`; `openResult`
is the oracle for `open_source(..)`: `none` when it fails, otherwise the
best-effort total duration it returned.  Returns (result, player after the
call, engine commands issued). -/
def startTrack (p : PlayerM) (startPos : ℕ) (now : ℕ) (meta : TrackMetaM)
    (openResult : Option (Option ℕ)) :
    Except Unit Unit × PlayerM × List EngCmd :=
  match p.tracks[p.current]? with
  | none => (Except.error (), p, [])
  | some _track =>
    match openResult with
    | none => (Except.error (), p, [])
    | some total =>
        (Except.ok (),
         { p with
            nowMeta := meta,
            totalDuration := total.or meta.duration,
            basePos := startPos,
            startedAt := some now,
            pausedAt := none,
            totalPause := 0,
            state := PlayState.playing },
         [EngCmd.setGain p.volumeGain, EngCmd.setPaused false,
          EngCmd.setSource])

/-! ## Shuffle order (`src/util.rs`, `make_shuffled_order`)

`rand i` is the oracle for `fastrand::usize(..=i)` (the library guarantees
`rand i ≤ i`; `swapL` leaves the list unchanged on an out-of-range index,
which the in-range draws of real executions never hit — `Vec::swap` would
panic there).
-/

/-- `Vec::swap` on lists, total: identity when an index is out of range. -/
def swapL {α : Type} (l : List α) (i j : ℕ) : List α :=
  match l[i]?, l[j]? with
  | some a, some b => (l.set i b).set j a
  | _, _ => l

/-- The `for i in (1..rest.len()).rev()` Fisher–Yates loop: `fyLoop rand i l`
performs the swaps for indices `i, i-1, …, 1`. -/
def fyLoop (rand : ℕ → ℕ) : ℕ → List ℕ → List ℕ
  | 0, l => l
  | i + 1, l => fyLoop rand i (swapL l (i + 1) (rand (i + 1)))

/-- `make_shuffled_order` (src/util.rs lines 3–23). -/
def make_shuffled_order (len current : ℕ) (rand : ℕ → ℕ) : List ℕ :=
  if len = 0 then []
  else if len = 1 then [0]
  else
    let rest := (List.range len).filter (fun i => i ≠ current)
    let rest := fyLoop rand (rest.length - 1) rest
    current :: rest

/-! ## Player operations mutating list/navigation state
(`src/player/mod.rs`)

Indexing `self.play_order[self.play_pos]` is modelled with `getD _ 0`; under
the navigation invariant proved below the index is always in bounds (out of
bounds, the Rust code would panic).
-/

/-- `Player::has_tracks`. -/
def hasTracks (p : PlayerM) : Bool :=
  !p.tracks.isEmpty

/-- `Player::sync_play_pos` (src/player/mod.rs lines 93–97). -/
def syncPlayPos (p : PlayerM) : PlayerM :=
  match p.playOrder.findIdx? (fun i => i = p.current) with
  | some pos => { p with playPos := pos }
  | none => p

/-- `Player::toggle_shuffle` (src/player/mod.rs lines 99–115). -/
def toggleShuffle (p : PlayerM) (rand : ℕ → ℕ) : PlayerM :=
  if !hasTracks p then
    { p with shuffle := false, playOrder := [], playPos := 0 }
  else
    let sh := !p.shuffle
    if sh then
      { p with
          shuffle := sh,
          playOrder := make_shuffled_order p.tracks.length p.current rand,
          playPos := 0 }
    else
      { p with
          shuffle := sh,
          playOrder := List.range p.tracks.length,
          playPos := p.current }

/-- `Player::play_selected` (src/player/mod.rs lines 135–142). -/
def playSelected (p : PlayerM) (now : ℕ) (meta : TrackMetaM)
    (openResult : Option (Option ℕ)) :
    Except Unit Unit × PlayerM × List EngCmd :=
  if !hasTracks p then (Except.ok (), p, [])
  else
    let p := syncPlayPos { p with current := p.selected }
    startTrack p 0 now meta openResult

/-- `Player::next_track` (src/player/mod.rs lines 228–236). -/
def nextTrack (p : PlayerM) (now : ℕ) (meta : TrackMetaM)
    (openResult : Option (Option ℕ)) :
    Except Unit Unit × PlayerM × List EngCmd :=
  if !hasTracks p then (Except.ok (), p, [])
  else
    let pos := (p.playPos + 1) % p.playOrder.length
    let cur := p.playOrder.getD pos 0
    startTrack { p with playPos := pos, current := cur, selected := cur }
      0 now meta openResult

/-- `Player::prev_track` (src/player/mod.rs lines 238–246). -/
def prevTrack (p : PlayerM) (now : ℕ) (meta : TrackMetaM)
    (openResult : Option (Option ℕ)) :
    Except Unit Unit × PlayerM × List EngCmd :=
  if !hasTracks p then (Except.ok (), p, [])
  else
    let pos := (p.playPos + p.playOrder.length - 1) % p.playOrder.length
    let cur := p.playOrder.getD pos 0
    startTrack { p with playPos := pos, current := cur, selected := cur }
      0 now meta openResult

/-- `Player::delete_selected` (src/player/mod.rs lines 352–426).
`removeOk = false` models `fs::remove_file` failing with an error other
than `NotFound` (success and `NotFound` both proceed). -/
def deleteSelected (p : PlayerM) (removeOk : Bool) (rand : ℕ → ℕ) (now : ℕ)
    (meta : TrackMetaM) (openResult : Option (Option ℕ)) :
    Except Unit Unit × PlayerM × List EngCmd :=
  if !hasTracks p then (Except.ok (), p, [])
  else
    match p.tracks[p.selected]? with
    | none => (Except.error (), p, [])
    | some _path =>
      if !removeOk then (Except.error (), p, [])
      else
        let idx := p.selected
        let deletingCurrent := idx == p.current
        let wasActive :=
          p.state == PlayState.playing || p.state == PlayState.paused
        let stop := deletingCurrent
        let p :=
          if stop then
            { p with
                state := PlayState.stopped, loopCurrent := false,
                basePos := 0, startedAt := none, pausedAt := none,
                totalPause := 0, totalDuration := none,
                nowMeta := default }
          else p
        let cmds : List EngCmd := if stop then [EngCmd.stopNow] else []
        let p := { p with tracks := p.tracks.eraseIdx idx }
        if p.tracks.isEmpty then
          (Except.ok (),
           { p with
              playOrder := [], playPos := 0, current := 0, selected := 0,
              shuffle := false },
           cmds)
        else
          let p :=
            if !deletingCurrent then
              if idx < p.current then { p with current := p.current - 1 }
              else p
            else { p with current := min idx (p.tracks.length - 1) }
          let p := { p with selected := min p.selected (p.tracks.length - 1) }
          let p :=
            if p.shuffle then
              { p with
                  playOrder :=
                    make_shuffled_order p.tracks.length p.current rand,
                  playPos := 0 }
            else
              { p with
                  playOrder := List.range p.tracks.length,
                  playPos := p.current }
          if deletingCurrent && wasActive then
            let p := { p with selected := p.current }
            let r := startTrack p 0 now meta openResult
            (r.1, r.2.1, cmds ++ r.2.2)
          else (Except.ok (), p, cmds)

/-- `Player::refresh_tracks` (src/player/mod.rs lines 318–350).  `fresh` is
the oracle for `discover_tracks` (`none` when it fails); `sort_by` on paths
is a stable sort, modelled with `List.insertionSort`. -/
def refreshTracks (p : PlayerM) (fresh : Option (List ℕ)) (rand : ℕ → ℕ) :
    PlayerM :=
  match fresh with
  | none => p
  | some fresh =>
    let toAdd := fresh.filter (fun t => !p.tracks.contains t)
    if toAdd.isEmpty then p
    else
      let tracks' := (p.tracks ++ toAdd).insertionSort (· ≤ ·)
      let p := { p with tracks := tracks' }
      if p.shuffle then
        { p with
            playOrder := make_shuffled_order tracks'.length p.current rand,
            playPos := 0 }
      else
        syncPlayPos { p with playOrder := List.range tracks'.length }

/-! ## Output engine: generation-tagged shared state
(`src/audio/output.rs`, `AudioControl::set_source` / `stop_now` and the
fill-thread closure in `AudioOutput::new_low_latency`)

Buffered samples are represented by the generation under which the fill
thread pulled them (the sample values are irrelevant to generation safety).
`activeGen` is the fill thread's `active_gen` local, `hasActive` its
`active.is_some()`, `pendingSet` is `state.pending_source.is_some()`.
The step relation interleaves the controller thread (`setSource`,
`stopNow`), the fill thread, and the realtime callback arbitrarily; each
constructor is one lock-protected (or lock-free) critical section of the
Rust code.
-/

structure OutSt : Type where
  gen : ℕ
  buffer : List ℕ
  pendingSet : Bool
  activeGen : ℕ
  hasActive : Bool
deriving DecidableEq

/-- One atomic step of the output engine's shared state. -/
inductive OutStep : OutSt → OutSt → Prop where
  /-- `AudioControl::set_source` (lines 58–73): store the pending source,
  clear the buffer, increment the generation. -/
  | setSource (s : OutSt) :
      OutStep s { s with gen := s.gen + 1, buffer := [], pendingSet := true }
  /-- `AudioControl::stop_now` with the `try_lock` succeeding (lines 24–36):
  clear pending and buffer, increment the generation. -/
  | stopNowLocked (s : OutSt) :
      OutStep s { s with gen := s.gen + 1, buffer := [], pendingSet := false }
  /-- `stop_now` whose `try_lock` fails: only atomic flags change. -/
  | stopNowContended (s : OutSt) :
      OutStep s s
  /-- Fill thread, `killed` branch (lines 147–155): drop the active source,
  clear pending and buffer. -/
  | killedClear (s : OutSt) :
      OutStep s
        { s with buffer := [], pendingSet := false, hasActive := false }
  /-- Fill thread, swap-in critical section (lines 161–177), generation
  changed: adopt the pending source, clear the buffer. -/
  | adopt (s : OutSt) (h : s.gen ≠ s.activeGen) :
      OutStep s
        { s with
            activeGen := s.gen, buffer := [], pendingSet := false,
            hasActive := s.pendingSet }
  /-- Fill thread, swap-in critical section, generation unchanged. -/
  | adoptNoop (s : OutSt) (h : s.gen = s.activeGen) :
      OutStep s s
  /-- Fill thread, push critical section (lines 214–220), generation still
  matches `local_gen` (the `active_gen` of this iteration): append the
  pulled chunk, tagged with that generation. -/
  | pushChunk (s : OutSt) (k : ℕ) (ha : s.hasActive = true)
      (hg : s.gen = s.activeGen) :
      OutStep s { s with buffer := s.buffer ++ List.replicate k s.activeGen }
  /-- Fill thread, push critical section, generation moved on: the chunk is
  discarded. -/
  | pushStale (s : OutSt) (k : ℕ) (hg : s.gen ≠ s.activeGen) :
      OutStep s s
  /-- Fill thread, source exhausted (lines 198–205): clear the active
  source (and set the finished flag, not modelled here). -/
  | sourceDone (s : OutSt) :
      OutStep s { s with hasActive := false }
  /-- Realtime callback plays the next buffered sample (`buffer.pop_front`
  in `write_data*`). -/
  | pop (s : OutSt) (t : ℕ) (rest : List ℕ) (h : s.buffer = t :: rest) :
      OutStep s { s with buffer := rest }

/-- States reachable from engine start-up (`source_generation = 0`, empty
buffer, no pending or active source). -/
inductive OutReachable : OutSt → Prop where
  | init : OutReachable ⟨0, [], false, 0, false⟩
  | step {s t : OutSt} : OutReachable s → OutStep s t → OutReachable t

/-! ## Realtime callbacks (`src/audio/output.rs`, `write_data`,
`write_data_i16`, `write_data_u16`)

Inputs: the block length `n`, the shared ring buffer contents, the three
atomic flags, whether `state.try_lock()` would succeed (`lockFree`), and
the gain.  Output: the block written to the hardware, the buffer afterward,
and whether the shared-state lock was acquired.
-/

structure CbRes (β : Type) : Type where
  out : List β
  buffer : List ℚ
  lockAcquired : Bool
deriving DecidableEq

/-- `f32::clamp` (and `Duration`-free `clamp` in general) over `ℚ`. -/
def clampQ (x lo hi : ℚ) : ℚ :=
  min (max x lo) hi

/-- Rust `as` casts from a float to an integer type truncate toward zero
(saturating; all values cast below are in range). -/
def truncQ (q : ℚ) : ℤ :=
  if q < 0 then ⌈q⌉ else ⌊q⌋

/-- The drain loop of `write_data` (lines 403–409): pop one sample per
output slot, scale by the gain, clamp to [-1, 1]; silence on underrun. -/
def drainF32 (gain : ℚ) : ℕ → List ℚ → List ℚ × List ℚ
  | 0, buf => ([], buf)
  | n + 1, [] =>
      let r := drainF32 gain n []
      (0 :: r.1, r.2)
  | n + 1, v :: buf =>
      let r := drainF32 gain n buf
      (clampQ (v * gain) (-1) 1 :: r.1, r.2)

/-- `write_data` (src/audio/output.rs lines 376–410). -/
def write_data (n : ℕ) (buffer : List ℚ)
    (killed paused lockFree : Bool) (gain : ℚ) : CbRes ℚ :=
  if killed then ⟨List.replicate n 0, buffer, false⟩
  else if paused then ⟨List.replicate n 0, buffer, false⟩
  else if !lockFree then ⟨List.replicate n 0, buffer, false⟩
  else
    let r := drainF32 gain n buffer
    ⟨r.1, r.2, true⟩

/-- The drain loop of `write_data_i16` (lines 437–444):
`(scaled * i16::MAX as f32) as i16` with `scaled` clamped to [-1, 1]. -/
def drainI16 (gain : ℚ) : ℕ → List ℚ → List ℤ × List ℚ
  | 0, buf => ([], buf)
  | n + 1, [] =>
      let r := drainI16 gain n []
      (0 :: r.1, r.2)
  | n + 1, v :: buf =>
      let r := drainI16 gain n buf
      (truncQ (clampQ (v * gain) (-1) 1 * 32767) :: r.1, r.2)

/-- `write_data_i16` (src/audio/output.rs lines 412–445). -/
def write_data_i16 (n : ℕ) (buffer : List ℚ)
    (killed paused lockFree : Bool) (gain : ℚ) : CbRes ℤ :=
  if killed then ⟨List.replicate n 0, buffer, false⟩
  else if paused then ⟨List.replicate n 0, buffer, false⟩
  else if !lockFree then ⟨List.replicate n 0, buffer, false⟩
  else
    let r := drainI16 gain n buffer
    ⟨r.1, r.2, true⟩

/-- `u16::MAX / 2` in Rust integer division: the silence value of
`write_data_u16`. -/
def u16Mid : ℕ := 65535 / 2

/-- The drain loop of `write_data_u16` (lines 473–481): center at
`u16::MAX as f32 / 2.0` (exactly 65535/2), clamp to [0, 65535], cast. -/
def drainU16 (gain : ℚ) : ℕ → List ℚ → List ℕ × List ℚ
  | 0, buf => ([], buf)
  | n + 1, [] =>
      let r := drainU16 gain n []
      (u16Mid :: r.1, r.2)
  | n + 1, v :: buf =>
      let r := drainU16 gain n buf
      let scaled := clampQ (v * gain) (-1) 1
      let centered := scaled * (65535 / 2 : ℚ) + (65535 / 2 : ℚ)
      ((truncQ (clampQ centered 0 65535)).toNat :: r.1, r.2)

/-- `write_data_u16` (src/audio/output.rs lines 447–482). -/
def write_data_u16 (n : ℕ) (buffer : List ℚ)
    (killed paused lockFree : Bool) (gain : ℚ) : CbRes ℕ :=
  if killed then ⟨List.replicate n u16Mid, buffer, false⟩
  else if paused then ⟨List.replicate n u16Mid, buffer, false⟩
  else if !lockFree then ⟨List.replicate n u16Mid, buffer, false⟩
  else
    let r := drainU16 gain n buffer
    ⟨r.1, r.2, true⟩

/-! ## Helper lemmas -/

theorem runFinishedCalls_flag_false (l : List PlayState) :
    runFinishedCalls l false = (List.replicate l.length false, false) := by
  induction l with
  | nil => rfl
  | cons s rest ih =>
      have hs : isTrackFinished s false = (false, false) := by
        cases s <;> simp [isTrackFinished, takeFinished]
      simp [runFinishedCalls, hs, ih, List.replicate_succ]

theorem decodeMore_replicate_decErr {α : Type} (k c : ℕ) (hk : c + k ≤ 1000)
    (evs : List (DecEvent α)) :
    decodeMore c (List.replicate k DecEvent.decErr ++ evs) =
      decodeMore (c + k) evs := by
  induction k generalizing c with
  | zero => simp
  | succ k ih =>
      have h1 : ¬ c + 1 > 1000 := by omega
      have h2 : (c + 1) + k ≤ 1000 := by omega
      calc decodeMore c (List.replicate (k + 1) DecEvent.decErr ++ evs)
          = decodeMore (c + 1) (List.replicate k DecEvent.decErr ++ evs) := by
            simp [List.replicate_succ, decodeMore, h1]
        _ = decodeMore ((c + 1) + k) evs := ih (c + 1) h2
        _ = decodeMore (c + (k + 1)) evs := by ring_nf

/-! ## C2 -/

/-- C2: in the per-pull decode loop, each recoverable per-frame decode error
increments the consecutive-error counter, the counter is reset to zero on a
successful decode, and the call fails exactly when the counter exceeds
1,000: up to 1,000 consecutive corrupt frames followed by a valid frame
still yield the decoded chunk (in particular any number up to 999), while a
1,001st consecutive corrupt frame fails the call. -/
theorem c2_decode_error_ceiling {α : Type} (k : ℕ) (hk : k ≤ 1000)
    (chunk : List α) (evs evs2 evs3 : List (DecEvent α)) (c : ℕ) :
    decodeMore 0
        (List.replicate k DecEvent.decErr ++ DecEvent.decOk chunk :: evs) =
      ⟨some chunk, 0, evs⟩ ∧
    decodeMore c (DecEvent.decOk chunk :: evs2) = ⟨some chunk, 0, evs2⟩ ∧
    decodeMore 0 (List.replicate 1001 DecEvent.decErr ++ evs3) =
      ⟨none, 1001, evs3⟩ := by
  refine ⟨?_, rfl, ?_⟩
  · rw [decodeMore_replicate_decErr k 0 (by omega)]
    simp [decodeMore]
  · have h : (1001 : ℕ) = 1000 + 1 := by norm_num
    rw [h, List.replicate_add, List.append_assoc,
      decodeMore_replicate_decErr 1000 0 (by omega)]
    simp [decodeMore]

/-- C2 witness: 999 corrupt frames then a valid one still decode; 1,001
corrupt frames fail. -/
theorem c2_witness :
    decodeMore 0
        (List.replicate 999 DecEvent.decErr ++
          DecEvent.decOk [(7 : ℕ)] :: []) = ⟨some [7], 0, []⟩ ∧
    decodeMore 5 (DecEvent.decOk [(7 : ℕ)] :: []) = ⟨some [7], 0, []⟩ ∧
    decodeMore 0 (List.replicate 1001 (DecEvent.decErr (α := ℕ)) ++ []) =
      ⟨none, 1001, []⟩ :=
  c2_decode_error_ceiling 999 (by omega) [7] [] [] [] 5

/-! ## C7 -/

/-- C7: `is_track_finished` is one-shot and edge-triggered: with the
engine's finished flag set and the player `Playing`, the first call returns
`true` (and atomically clears the flag); every subsequent call — whatever
state the player is in — returns `false` and leaves the flag `false` until
the engine reports another completion. -/
theorem c7_is_track_finished_one_shot (rest : List PlayState) :
    (runFinishedCalls (PlayState.playing :: rest) true).1 =
      true :: List.replicate rest.length false ∧
    (runFinishedCalls (PlayState.playing :: rest) true).2 = false := by
  have h1 : isTrackFinished PlayState.playing true = (true, false) := rfl
  constructor <;>
    simp [runFinishedCalls, h1, runFinishedCalls_flag_false rest]

/-! ## C6 -/

/-- C6: if `start_track` fails because the decoder cannot open the file
(`open_source` returns an error), the error is propagated to the caller,
the whole `Player` state — play state, timestamps, base offset, cached
total duration, now-playing metadata — is exactly as before the call, and
no command is sent to the output engine (its active source is untouched). -/
theorem c6_start_track_failure_preserves_state (p : PlayerM)
    (startPos now : ℕ) (meta : TrackMetaM) :
    startTrack p startPos now meta none = (Except.error (), p, []) := by
  unfold startTrack
  cases p.tracks[p.current]? <;> rfl

/-! ## C5 -/

theorem drainF32_eq (gain : ℚ) (n : ℕ) (buf : List ℚ) :
    drainF32 gain n buf =
      ((buf.take n).map (fun v => clampQ (v * gain) (-1) 1) ++
        List.replicate (n - buf.length) 0, buf.drop n) := by
  induction n generalizing buf with
  | zero => simp [drainF32]
  | succ n ih =>
      cases buf with
      | nil => simp [drainF32, ih, List.replicate_succ]
      | cons v buf => simp [drainF32, ih, Nat.succ_sub_succ]

theorem drainI16_eq (gain : ℚ) (n : ℕ) (buf : List ℚ) :
    drainI16 gain n buf =
      ((buf.take n).map (fun v => truncQ (clampQ (v * gain) (-1) 1 * 32767))
          ++ List.replicate (n - buf.length) 0, buf.drop n) := by
  induction n generalizing buf with
  | zero => simp [drainI16]
  | succ n ih =>
      cases buf with
      | nil => simp [drainI16, ih, List.replicate_succ]
      | cons v buf => simp [drainI16, ih, Nat.succ_sub_succ]

theorem drainU16_eq (gain : ℚ) (n : ℕ) (buf : List ℚ) :
    drainU16 gain n buf =
      ((buf.take n).map (fun v =>
          (truncQ (clampQ (clampQ (v * gain) (-1) 1 * (65535 / 2 : ℚ) +
            (65535 / 2 : ℚ)) 0 65535)).toNat) ++
        List.replicate (n - buf.length) u16Mid, buf.drop n) := by
  induction n generalizing buf with
  | zero => simp [drainU16]
  | succ n ih =>
      cases buf with
      | nil => simp [drainU16, ih, List.replicate_succ]
      | cons v buf => simp [drainU16, ih, Nat.succ_sub_succ]

theorem drop_map_take_append_replicate {α β : Type} (f : α → β) (b : β)
    (n : ℕ) (buf : List α) :
    ((buf.take n).map f ++ List.replicate (n - buf.length) b).drop
        buf.length = List.replicate (n - buf.length) b := by
  have hlen : ((buf.take n).map f).length = min n buf.length := by simp
  have hle : ((buf.take n).map f).length ≤ buf.length := by omega
  rw [List.drop_append_eq_append_drop, List.drop_eq_nil_of_le hle,
    List.nil_append]
  rcases le_total n buf.length with h | h
  · have h0 : n - buf.length = 0 := by omega
    simp [h0]
  · have h0 : buf.length - ((buf.take n).map f).length = 0 := by omega
    rw [h0, List.drop_zero]

/-- C5: for every invocation of the realtime callback, in each of the three
output formats (`f32`, `i16`, `u16`): if the killed flag or the paused flag
is set, the whole block is silence (0 for the float and signed formats,
`u16::MAX / 2` for the unsigned format) and the shared-state lock is not
touched; otherwise the lock is only try-acquired, and on contention the
whole block is silence without waiting; on success the lock is acquired,
the block has exactly the requested length, and any ring-buffer shortfall
is filled with silence for the remainder of the block. -/
theorem c5_callback_nonblocking (n : ℕ) (buffer : List ℚ) (b lf : Bool)
    (gain : ℚ) :
    (write_data n buffer true b lf gain =
        ⟨List.replicate n 0, buffer, false⟩ ∧
      write_data_i16 n buffer true b lf gain =
        ⟨List.replicate n 0, buffer, false⟩ ∧
      write_data_u16 n buffer true b lf gain =
        ⟨List.replicate n u16Mid, buffer, false⟩) ∧
    (write_data n buffer false true lf gain =
        ⟨List.replicate n 0, buffer, false⟩ ∧
      write_data_i16 n buffer false true lf gain =
        ⟨List.replicate n 0, buffer, false⟩ ∧
      write_data_u16 n buffer false true lf gain =
        ⟨List.replicate n u16Mid, buffer, false⟩) ∧
    (write_data n buffer false false false gain =
        ⟨List.replicate n 0, buffer, false⟩ ∧
      write_data_i16 n buffer false false false gain =
        ⟨List.replicate n 0, buffer, false⟩ ∧
      write_data_u16 n buffer false false false gain =
        ⟨List.replicate n u16Mid, buffer, false⟩) ∧
    ((write_data n buffer false false true gain).lockAcquired = true ∧
      (write_data n buffer false false true gain).out.length = n ∧
      (write_data n buffer false false true gain).out.drop buffer.length =
        List.replicate (n - buffer.length) 0 ∧
      (write_data_i16 n buffer false false true gain).out.drop
          buffer.length = List.replicate (n - buffer.length) 0 ∧
      (write_data_u16 n buffer false false true gain).out.drop
          buffer.length = List.replicate (n - buffer.length) u16Mid) := by
  have hw : (write_data n buffer false false true gain).out =
      (drainF32 gain n buffer).1 := rfl
  have hwi : (write_data_i16 n buffer false false true gain).out =
      (drainI16 gain n buffer).1 := rfl
  have hwu : (write_data_u16 n buffer false false true gain).out =
      (drainU16 gain n buffer).1 := rfl
  refine ⟨⟨rfl, rfl, rfl⟩, ⟨rfl, rfl, rfl⟩, ⟨rfl, rfl, rfl⟩, rfl, ?_, ?_, ?_, ?_⟩
  · rw [hw, drainF32_eq]
    simp
    omega
  · rw [hw, drainF32_eq]
    exact drop_map_take_append_replicate _ _ n buffer
  · rw [hwi, drainI16_eq]
    exact drop_map_take_append_replicate _ _ n buffer
  · rw [hwu, drainU16_eq]
    exact drop_map_take_append_replicate _ _ n buffer

/-! ## C3 -/

/-- A looping player whose known total duration is positive but below one
millisecond (e.g. metadata reporting a 0.5 ms track). -/
def c3CexPlayer : PlayerM :=
  { tracks := [0], current := 0, selected := 0, playOrder := [0],
    playPos := 0, shuffle := false, state := PlayState.playing,
    volumeGain := 1, basePos := 0, startedAt := some 0, pausedAt := none,
    totalPause := 0, totalDuration := some 500000,
    nowMeta := ⟨0, none⟩, loopCurrent := true }

/-- C3 counterexample: with looping enabled and total duration
`D = 500000 ns = 0.5 ms > 0`, `position()` does not return a value in
`[0, D)` — the wrap computes `ms % total_ms` with `total_ms = 0`, an
integer remainder by zero, which panics in Rust (modelled as `none`). -/
theorem c3_counterexample :
    c3CexPlayer.loopCurrent = true ∧
    c3CexPlayer.totalDuration = some 500000 ∧
    0 < (500000 : ℕ) ∧
    position c3CexPlayer 0 = none := by
  refine ⟨rfl, rfl, by norm_num, ?_⟩
  decide

/-- C3 (amended): whenever the loop flag is set and the known total
duration `D` is at least one millisecond (and its millisecond count is not
a multiple of 2^64, where the `as u64` cast would wrap to zero),
`position()` returns a value in `[0, D)` for every wall-clock time `now`
and every combination of the remaining timestamp fields; for
`0 < D < 1 ms` the wrap divides by a zero millisecond count and panics. -/
theorem c3_loop_wrap (p : PlayerM) (now D : ℕ)
    (hl : p.loopCurrent = true) (hD : p.totalDuration = some D)
    (h1 : nsPerMs ≤ D) (h2 : (D / nsPerMs) % u64Mod ≠ 0) :
    ∃ v, position p now = some v ∧ v < D := by
  have hpos : 0 < D := lt_of_lt_of_le (by norm_num [nsPerMs]) h1
  have htm : 0 < (D / nsPerMs) % u64Mod := Nat.pos_of_ne_zero h2
  refine ⟨((rawPosition p now / nsPerMs) % u64Mod %
    ((D / nsPerMs) % u64Mod)) * nsPerMs, ?_, ?_⟩
  · unfold position
    rw [hl, hD]
    simp only [if_pos hpos, if_true]
    rw [if_neg h2]
  · have hlt : (rawPosition p now / nsPerMs) % u64Mod %
        ((D / nsPerMs) % u64Mod) < (D / nsPerMs) % u64Mod :=
      Nat.mod_lt _ htm
    have hle2 : (D / nsPerMs) % u64Mod ≤ D / nsPerMs := Nat.mod_le _ _
    have hmul : (rawPosition p now / nsPerMs) % u64Mod %
        ((D / nsPerMs) % u64Mod) * nsPerMs < (D / nsPerMs) * nsPerMs := by
      have : (rawPosition p now / nsPerMs) % u64Mod %
          ((D / nsPerMs) % u64Mod) < D / nsPerMs := lt_of_lt_of_le hlt hle2
      exact mul_lt_mul_of_pos_right this (by norm_num [nsPerMs])
    calc (rawPosition p now / nsPerMs) % u64Mod %
          ((D / nsPerMs) % u64Mod) * nsPerMs
        < (D / nsPerMs) * nsPerMs := hmul
      _ ≤ D := Nat.div_mul_le_self D nsPerMs

/-- C3 witness: a playing, looping player with a 1-second track, queried
late: the wrapped position exists and is below one second. -/
theorem c3_loop_wrap_witness :
    ∃ v, position
        { tracks := [0], current := 0, selected := 0, playOrder := [0],
          playPos := 0, shuffle := false, state := PlayState.playing,
          volumeGain := 1, basePos := 0, startedAt := some 0,
          pausedAt := none, totalPause := 0,
          totalDuration := some 1000000000, nowMeta := ⟨0, none⟩,
          loopCurrent := true } 5500000000 = some v ∧ v < 1000000000 :=
  c3_loop_wrap _ 5500000000 1000000000 rfl rfl (by norm_num [nsPerMs])
    (by norm_num [nsPerMs, u64Mod])

/-! ## C9 -/

theorem primeGo_calls_le {α : Type} (fuel : ℕ) (fifo : List α) (c : ℕ)
    (evs : List (DecEvent α)) : (primeGo fuel fifo c evs).calls ≤ fuel := by
  induction fuel generalizing fifo c evs with
  | zero => simp [primeGo]
  | succ fuel ih =>
      by_cases h : fifo.isEmpty
      · simp only [primeGo, h, if_true]
        exact Nat.succ_le_succ (ih _ _ _)
      · simp [primeGo, h]

/-- A packet stream whose first 300 packets are corrupt, followed by one
good packet: priming consumes all 301 packets inside a single `decode_more`
invocation and succeeds. -/
def c9CexEvs : List (DecEvent ℕ) :=
  List.replicate 300 DecEvent.decErr ++ [DecEvent.decOk [5]]

set_option maxRecDepth 4000 in
/-- C9 counterexample: the claim says the session decodes at most 250
packets while priming and fails when no decoded samples are obtained
within that bound.  On this 301-packet stream — no decodable sample among
the first 250 (or even 300) packets — construction nevertheless succeeds,
consuming all 301 packets (`rest = []`): the 250 bound counts `decode_more`
invocations, not packets, and one invocation reads arbitrarily many
packets. -/
theorem c9_counterexample :
    prime ([] : List ℕ) 0 c9CexEvs = some ⟨[5], 0, [], 1⟩ ∧
    c9CexEvs.length = 301 := by
  constructor
  · decide
  · decide

/-- C9 (amended): opening a streaming decoder session primes it with at
most 250 invocations of the per-pull decode loop (each of which may
consume several packets) while looking for any successfully decoded audio;
if no decoded samples are obtained within that bound, construction fails
with a "no decodable audio" error rather than returning a sequence that
yields nothing forever. -/
theorem c9_prime_bounded {α : Type} (evs : List (DecEvent α)) :
    (primeGo 250 ([] : List α) 0 evs).calls ≤ 250 ∧
    (prime ([] : List α) 0 evs = none ↔
      (primeGo 250 ([] : List α) 0 evs).fifo = []) ∧
    (∀ r : PrimeRes α, prime [] 0 evs = some r → r.fifo ≠ []) := by
  have hd : prime ([] : List α) 0 evs =
      (if (primeGo 250 ([] : List α) 0 evs).fifo.isEmpty then none
       else some (primeGo 250 ([] : List α) 0 evs)) := rfl
  refine ⟨primeGo_calls_le 250 [] 0 evs, ?_, ?_⟩
  · rw [hd]
    by_cases h : (primeGo 250 ([] : List α) 0 evs).fifo.isEmpty
    · simp [h, List.isEmpty_iff.mp h]
    · rw [if_neg h]
      constructor
      · intro hn
        exact absurd hn (by simp)
      · intro he
        exact absurd (List.isEmpty_iff.mpr he) h
  · intro r hr he
    rw [hd] at hr
    by_cases h : (primeGo 250 ([] : List α) 0 evs).fifo.isEmpty
    · rw [if_pos h] at hr
      exact absurd hr (by simp)
    · rw [if_neg h] at hr
      have heq : primeGo 250 ([] : List α) 0 evs = r := Option.some.inj hr
      exact h (by rw [heq, he]; rfl)

/-! ## C4 -/

/-- The generation-safety invariant: every buffered sample carries the
current generation, and the fill thread's adopted generation never exceeds
the shared counter. -/
def outInv (s : OutSt) : Prop :=
  (∀ t ∈ s.buffer, t = s.gen) ∧ s.activeGen ≤ s.gen

theorem outInv_step {s t : OutSt} (hinv : outInv s) (hstep : OutStep s t) :
    outInv t := by
  obtain ⟨hbuf, hgen⟩ := hinv
  cases hstep with
  | setSource =>
      refine ⟨fun x hx => absurd hx (List.not_mem_nil x), ?_⟩
      show s.activeGen ≤ s.gen + 1
      omega
  | stopNowLocked =>
      refine ⟨fun x hx => absurd hx (List.not_mem_nil x), ?_⟩
      show s.activeGen ≤ s.gen + 1
      omega
  | stopNowContended => exact ⟨hbuf, hgen⟩
  | killedClear =>
      exact ⟨fun x hx => absurd hx (List.not_mem_nil x), hgen⟩
  | adopt h =>
      exact ⟨fun x hx => absurd hx (List.not_mem_nil x), le_refl _⟩
  | adoptNoop h => exact ⟨hbuf, hgen⟩
  | pushChunk k ha hg =>
      refine ⟨?_, hgen⟩
      intro x hx
      rcases List.mem_append.mp hx with hx | hx
      · exact hbuf x hx
      · rw [List.eq_of_mem_replicate hx, hg]
  | pushStale k hg => exact ⟨hbuf, hgen⟩
  | sourceDone => exact ⟨hbuf, hgen⟩
  | pop u rest h =>
      refine ⟨?_, hgen⟩
      intro x hx
      exact hbuf x (by rw [h]; exact List.mem_cons_of_mem _ hx)

theorem outInv_reachable {s : OutSt} (h : OutReachable s) : outInv s := by
  induction h with
  | init => exact ⟨by simp, le_refl _⟩
  | step _ hstep ih => exact outInv_step ih hstep

/-- C4: in every reachable state of the output engine's shared state, a
sample the realtime callback is about to play (the front of the ring
buffer) was decoded under the currently active generation: its tag equals
the shared generation counter, and in particular is never less than the
generation the fill thread has adopted.  Since `set_source` increments the
counter and clears the buffer, once a swap to generation `N` has been
adopted, no sample of a generation `< N` can ever be played. -/
theorem c4_generation_safety (s : OutSt) (h : OutReachable s) (t : ℕ)
    (rest : List ℕ) (hb : s.buffer = t :: rest) :
    s.activeGen ≤ t ∧ t = s.gen := by
  obtain ⟨hbuf, hgen⟩ := outInv_reachable h
  have ht : t = s.gen := hbuf t (by rw [hb]; exact List.mem_cons_self _ _)
  exact ⟨by omega, ht⟩

/-- C4 witness: start-up, one `set_source`, one fill-thread adoption, one
pushed chunk of two samples: the sample at the buffer front carries the
adopted generation 1. -/
theorem c4_generation_safety_witness :
    (⟨1, [1, 1], false, 1, true⟩ : OutSt).activeGen ≤ 1 ∧
    1 = (⟨1, [1, 1], false, 1, true⟩ : OutSt).gen := by
  apply c4_generation_safety ⟨1, [1, 1], false, 1, true⟩ ?_ 1 [1] rfl
  have h0 : OutReachable ⟨0, [], false, 0, false⟩ := OutReachable.init
  have h1 : OutReachable ⟨1, [], true, 0, false⟩ :=
    h0.step (OutStep.setSource ⟨0, [], false, 0, false⟩)
  have h2 : OutReachable ⟨1, [], false, 1, true⟩ :=
    h1.step (OutStep.adopt ⟨1, [], true, 0, false⟩ (by decide))
  have h3 : OutReachable ⟨1, [1, 1], false, 1, true⟩ :=
    h2.step (OutStep.pushChunk ⟨1, [], false, 1, true⟩ 2 rfl rfl)
  exact h3

/-! ## C8 -/

theorem cons_set_perm {α : Type} (xs : List α) (k : ℕ) (a b : α)
    (h : xs[k]? = some b) : (b :: xs.set k a).Perm (a :: xs) := by
  induction xs generalizing k with
  | nil => simp at h
  | cons y ys ih =>
      cases k with
      | zero =>
          have hb : b = y := by simpa using h.symm
          subst hb
          simpa using List.Perm.swap a b ys
      | succ k =>
          have h' : ys[k]? = some b := by simpa using h
          have step1 : (b :: y :: ys.set k a).Perm (y :: b :: ys.set k a) :=
            List.Perm.swap y b _
          have step2 : (y :: b :: ys.set k a).Perm (y :: a :: ys) :=
            (ih k h').cons y
          have step3 : (y :: a :: ys).Perm (a :: y :: ys) :=
            List.Perm.swap a y ys
          simpa using (step1.trans step2).trans step3

theorem swapL_perm {α : Type} (l : List α) (i j : ℕ) :
    (swapL l i j).Perm l := by
  unfold swapL
  rcases hi : l[i]? with _ | a
  · exact List.Perm.refl _
  rcases hj : l[j]? with _ | b
  · exact List.Perm.refl _
  simp only []
  induction l generalizing i j with
  | nil => simp at hi
  | cons x xs ih =>
      cases i with
      | zero =>
          have ha : a = x := by simpa using hi.symm
          subst ha
          cases j with
          | zero =>
              have hb : b = a := by simpa using hj.symm
              subst hb
              simp
          | succ m =>
              have hj' : xs[m]? = some b := by simpa using hj
              simpa using cons_set_perm xs m a b hj'
      | succ k =>
          have hi' : xs[k]? = some a := by simpa using hi
          cases j with
          | zero =>
              have hb : b = x := by simpa using hj.symm
              subst hb
              simpa using cons_set_perm xs k b a hi'
          | succ m =>
              have hj' : xs[m]? = some b := by simpa using hj
              simpa using (ih k m hi' hj').cons x

theorem fyLoop_perm (rand : ℕ → ℕ) (i : ℕ) (l : List ℕ) :
    (fyLoop rand i l).Perm l := by
  induction i generalizing l with
  | zero => exact List.Perm.refl _
  | succ i ih => exact (ih _).trans (swapL_perm _ _ _)

theorem make_shuffled_order_spec (len current : ℕ) (rand : ℕ → ℕ)
    (h : current < len) :
    ∃ t, make_shuffled_order len current rand = current :: t ∧
      t.Perm ((List.range len).filter (fun i => i ≠ current)) := by
  match len, h with
  | 1, h =>
      have hc : current = 0 := by omega
      subst hc
      exact ⟨[], rfl, by decide⟩
  | (n + 2), h =>
      have hrw : make_shuffled_order (n + 2) current rand =
          current :: fyLoop rand
            (((List.range (n + 2)).filter (fun i => i ≠ current)).length - 1)
            ((List.range (n + 2)).filter (fun i => i ≠ current)) := by
        unfold make_shuffled_order
        rw [if_neg (by omega), if_neg (by omega)]
      exact ⟨_, hrw, fyLoop_perm rand _ _⟩

theorem range_filter_ne_eq_erase (len current : ℕ) :
    (List.range len).filter (fun i => i ≠ current) =
      (List.range len).erase current := by
  rw [List.Nodup.erase_eq_filter (List.nodup_range _) current]
  apply List.filter_congr
  intro x _
  by_cases h : x = current <;> simp [h, bne]

theorem make_shuffled_order_perm (len current : ℕ) (rand : ℕ → ℕ)
    (h : current < len) :
    (make_shuffled_order len current rand).Perm (List.range len) := by
  obtain ⟨t, he, hp⟩ := make_shuffled_order_spec len current rand h
  rw [he]
  have hmem : current ∈ List.range len := List.mem_range.mpr h
  have hperm : (List.range len).Perm
      (current :: (List.range len).erase current) :=
    List.perm_cons_erase hmem
  refine ((hp.cons current).trans ?_).trans hperm.symm
  rw [range_filter_ne_eq_erase]

theorem range_filter_ne_length (len current : ℕ) (h : current < len) :
    ((List.range len).filter (fun i => i ≠ current)).length = len - 1 := by
  rw [range_filter_ne_eq_erase,
    List.length_erase_of_mem (List.mem_range.mpr h), List.length_range]

/-- C8: for every non-empty track list and current index `c <` its length,
toggling shuffle on produces a play order whose first element is `c` and
whose remaining `n - 1` elements are a permutation (realised by the
Fisher–Yates loop over an arbitrary draw oracle) of all other indices
`0..n` except `c`. -/
theorem c8_shuffle_pins_current (p : PlayerM) (rand : ℕ → ℕ)
    (h1 : p.tracks ≠ []) (h2 : p.shuffle = false)
    (h3 : p.current < p.tracks.length) :
    ∃ t, (toggleShuffle p rand).playOrder = p.current :: t ∧
      t.length = p.tracks.length - 1 ∧
      t.Perm ((List.range p.tracks.length).filter
        (fun i => i ≠ p.current)) := by
  obtain ⟨t, he, hp⟩ :=
    make_shuffled_order_spec p.tracks.length p.current rand h3
  refine ⟨t, ?_, ?_, hp⟩
  · have hh : hasTracks p = true := by
      unfold hasTracks
      simp [h1]
    unfold toggleShuffle
    rw [hh, h2]
    simpa using he
  · rw [hp.length_eq, range_filter_ne_length _ _ h3]

/-- C8 witness: a 5-track list with current index 2: the first element of
the shuffled order is 2 and the rest is a permutation of {0, 1, 3, 4}. -/
theorem c8_shuffle_witness :
    ∃ t, (toggleShuffle
        { tracks := [10, 11, 12, 13, 14], current := 2, selected := 2,
          playOrder := [0, 1, 2, 3, 4], playPos := 2, shuffle := false,
          state := PlayState.stopped, volumeGain := 1, basePos := 0,
          startedAt := none, pausedAt := none, totalPause := 0,
          totalDuration := none, nowMeta := ⟨0, none⟩,
          loopCurrent := false } (fun _ => 0)).playOrder = 2 :: t ∧
      t.Perm [0, 1, 3, 4] := by
  obtain ⟨t, he, _, hp⟩ := c8_shuffle_pins_current
    { tracks := [10, 11, 12, 13, 14], current := 2, selected := 2,
      playOrder := [0, 1, 2, 3, 4], playPos := 2, shuffle := false,
      state := PlayState.stopped, volumeGain := 1, basePos := 0,
      startedAt := none, pausedAt := none, totalPause := 0,
      totalDuration := none, nowMeta := ⟨0, none⟩,
      loopCurrent := false } (fun _ => 0) (by decide) rfl (by decide)
  have hf : (List.range 5).filter (fun i => i ≠ 2) = [0, 1, 3, 4] := by
    decide
  exact ⟨t, he, by rw [← hf]; exact hp⟩

/-! ## C1 -/

theorem drop_append_ge {α : Type} (l m : List α) (n : ℕ)
    (h : l.length ≤ n) : (l ++ m).drop n = m.drop (n - l.length) := by
  rw [List.drop_append_eq_append_drop, List.drop_eq_nil_of_le h,
    List.nil_append]

theorem srcRun_no_loop {α : Type} (fuel : ℕ) (st : SrcState α)
    (hloop : st.loopEnabled = false) (hfuel : srcFuel st ≤ fuel) :
    srcRun fuel st = (st.fifo ++ st.chunks.flatten).drop st.skip := by
  induction fuel generalizing st with
  | zero =>
      exact absurd hfuel (by simp [srcFuel])
  | succ fuel ih =>
      obtain ⟨fifo, skip, chunks, lb, fc⟩ := st
      replace hloop : lb = false := hloop
      subst hloop
      replace hfuel : skip + fifo.length + 2 * chunks.length +
          chunks.flatten.length + 2 ≤ fuel + 1 := hfuel
      cases fifo with
      | nil =>
          cases chunks with
          | nil => simp [srcRun]
          | cons c cs =>
              have hstep : srcRun (fuel + 1)
                  ⟨[], skip, c :: cs, false, fc⟩ =
                  srcRun fuel ⟨c, skip, cs, false, fc⟩ := rfl
              rw [hstep, ih ⟨c, skip, cs, false, fc⟩ rfl ?_]
              · simp
              · have hfl : (c :: cs).flatten.length =
                    c.length + cs.flatten.length := by simp
                simp only [srcFuel]
                simp only [List.length_nil, List.length_cons] at hfuel ⊢
                omega
      | cons x rest =>
          simp only [List.length_cons] at hfuel
          simp only [srcRun]
          by_cases hgt : rest.length + 1 < skip
          · have hxr : (x :: rest).length ≤ skip := by
              simp only [List.length_cons]
              omega
            have hbound : srcFuel (⟨[], skip - (x :: rest).length, chunks,
                false, fc⟩ : SrcState α) ≤ fuel := by
              simp only [srcFuel, List.length_nil, List.length_cons]
              omega
            rw [min_eq_right hxr, List.drop_length,
              if_pos (by simp only [List.length_cons]; omega)]
            rw [ih ⟨[], skip - (x :: rest).length, chunks, false, fc⟩ rfl
              hbound]
            dsimp only
            rw [List.nil_append, drop_append_ge _ _ _ hxr]
          · push_neg at hgt
            have hxr : skip ≤ (x :: rest).length := by
              simp only [List.length_cons]
              omega
            rw [min_eq_left hxr, if_neg (by omega)]
            rcases hdrop : (x :: rest).drop skip with _ | ⟨y, fr⟩
            · have hlen : rest.length + 1 ≤ skip := by
                have := congrArg List.length hdrop
                simp only [List.length_drop, List.length_cons,
                  List.length_nil] at this
                omega
              have hbound : srcFuel (⟨[], 0, chunks, false, fc⟩ :
                  SrcState α) ≤ fuel := by
                simp only [srcFuel, List.length_nil]
                omega
              show srcRun fuel ⟨[], 0, chunks, false, fc⟩ =
                ((x :: rest) ++ chunks.flatten).drop skip
              rw [ih ⟨[], 0, chunks, false, fc⟩ rfl hbound]
              dsimp only
              rw [List.nil_append, List.drop_zero, drop_append_ge _ _ _
                (by simp only [List.length_cons]; omega)]
              simp only [List.length_cons]
              rw [show skip - (rest.length + 1) = 0 from by omega,
                List.drop_zero]
            · have hfr : fr.length + skip = rest.length := by
                have := congrArg List.length hdrop
                simp only [List.length_drop, List.length_cons] at this
                omega
              have hbound : srcFuel (⟨fr, 0, chunks, false, fc⟩ :
                  SrcState α) ≤ fuel := by
                simp only [srcFuel]
                omega
              show y :: srcRun fuel ⟨fr, 0, chunks, false, fc⟩ =
                ((x :: rest) ++ chunks.flatten).drop skip
              rw [ih ⟨fr, 0, chunks, false, fc⟩ rfl hbound]
              dsimp only
              rw [List.drop_zero, List.drop_append_of_le_length hxr, hdrop,
                List.cons_append]

/-- A looping session whose single pass decodes only 4 samples, opened
with a skip budget of 10 (offset 5/4 s at 4 Hz stereo): the first pass
discards its 4 samples, the reopen resets the remaining skip to zero, and
the session yields the reopened file's first sample. -/
def c1CexState : SrcState ℕ :=
  ⟨[1, 2, 3, 4], tryNewSkipSamples (5 / 4) 4 2, [], true,
    some [[1, 2, 3, 4]]⟩

/-- C1 counterexample: the claim is unqualified over sessions, including
looping ones, but `reopen_for_loop` resets `skip_samples` to 0
(src/audio.rs line 171).  Here the budget is
`round(5/4 * 4) * 2 = 10` while one pass decodes only the 4 samples
`[1, 2, 3, 4]`; the looping decoded stream is `1,2,3,4,1,2,3,4,…`, so
discarding exactly 10 samples before the first yield would make the first
yielded sample `3` (index 10 of that stream) — but the session discards
only the 4 samples of the first pass and yields `1`. -/
theorem c1_counterexample :
    tryNewSkipSamples (5 / 4) 4 2 = 10 ∧
    (srcRun 20 c1CexState).head? = some 1 ∧
    (([1, 2, 3, 4] ++ [1, 2, 3, 4] ++ [1, 2, 3, 4] : List ℕ).drop
      10).head? = some 3 := by
  have h10 : tryNewSkipSamples (5 / 4) 4 2 = 10 := by
    unfold tryNewSkipSamples
    norm_num [round_eq]
    rfl
  refine ⟨h10, ?_, ?_⟩
  · unfold c1CexState
    rw [h10]
    decide
  · decide

/-- C1 (amended): for every start offset `T ≥ 0` seconds, a streaming
decoder session opened with looping disabled discards exactly
`round(T * sample_rate) * channels` samples from the front of its
decoded-sample queue before the first sample is yielded: the skip budget
computed once in `try_new` equals that count, and the delivered sample
sequence is the decoded sample stream with exactly that prefix removed.
(In a looping session the budget applies only until the first internal
reopen, which resets the remaining skip to zero — see the
counterexample.) -/
theorem c1_skip_correctness {α : Type} (T : ℚ) (hT : 0 ≤ T) (sr ch : ℕ)
    (fifo : List α) (chunks : List (List α))
    (fc : Option (List (List α))) (fuel : ℕ)
    (hfuel : srcFuel (⟨fifo, tryNewSkipSamples T sr ch, chunks, false, fc⟩ :
      SrcState α) ≤ fuel) :
    tryNewSkipSamples T sr ch = (round (T * (sr : ℚ))).toNat * ch ∧
    srcRun fuel ⟨fifo, tryNewSkipSamples T sr ch, chunks, false, fc⟩ =
      (fifo ++ chunks.flatten).drop ((round (T * (sr : ℚ))).toNat * ch) := by
  have hmax : max (T * (sr : ℚ)) 0 = T * (sr : ℚ) :=
    max_eq_left (mul_nonneg hT (by positivity))
  have hskip : tryNewSkipSamples T sr ch =
      (round (T * (sr : ℚ))).toNat * ch := by
    unfold tryNewSkipSamples
    rw [hmax]
  refine ⟨hskip, ?_⟩
  rw [srcRun_no_loop fuel _ rfl hfuel]
  rw [hskip]

/-- C1 witness: a 1.5-second offset at 4 Hz stereo skips the first 12
decoded samples; the session then yields exactly the remaining decoded
samples. -/
theorem c1_skip_witness :
    srcRun 100 ⟨[1, 2, 3, 4, 5, 6, 7], tryNewSkipSamples (3 / 2) 4 2,
        [[8, 9, 10, 11, 12, 13], [14]], false, none⟩ =
      (([1, 2, 3, 4, 5, 6, 7] : List ℕ) ++
        [[8, 9, 10, 11, 12, 13], [14]].flatten).drop
          ((round ((3 / 2 : ℚ) * (4 : ℕ))).toNat * 2) :=
  (c1_skip_correctness (3 / 2) (by norm_num) 4 2 [1, 2, 3, 4, 5, 6, 7]
    [[8, 9, 10, 11, 12, 13], [14]] none 100 (by
      have h12 : tryNewSkipSamples (3 / 2) 4 2 = 12 := by
        unfold tryNewSkipSamples
        norm_num [round_eq]
        rfl
      simp [srcFuel, h12])).2

/-! ## C10 -/

/-- The claim's navigation invariant: whenever the track list is non-empty,
the current and selected indices are in bounds, the play order is a
permutation of `0..tracks.len()`, and the play position indexes into it. -/
def navInvariant (p : PlayerM) : Prop :=
  p.tracks ≠ [] →
    (p.current < p.tracks.length ∧ p.selected < p.tracks.length ∧
      p.playOrder.Perm (List.range p.tracks.length) ∧
      p.playPos < p.playOrder.length)

/-- The strengthened (inductive) navigation invariant: additionally, in the
empty-list state the indices are zero, shuffle is off, and the play order
is empty — which is what the code actually establishes whenever the list
becomes empty. -/
def navInvariantFull (p : PlayerM) : Prop :=
  navInvariant p ∧
  (p.tracks = [] →
    (p.current = 0 ∧ p.selected = 0 ∧ p.shuffle = false ∧
      p.playOrder = [] ∧ p.playPos = 0))

instance (p : PlayerM) : Decidable (navInvariant p) := by
  unfold navInvariant
  infer_instance

instance (p : PlayerM) : Decidable (navInvariantFull p) := by
  unfold navInvariantFull navInvariant
  infer_instance

theorem findIdx?_some_lt {α : Type} (p : α → Bool) (l : List α) (i : ℕ)
    (h : List.findIdx? p l = some i) : i < l.length := by
  induction l generalizing i with
  | nil => simp [List.findIdx?] at h
  | cons x xs ih =>
      rw [List.findIdx?_cons] at h
      by_cases hp : p x
      · simp [hp] at h
        simp only [List.length_cons]
        omega
      · simp [hp] at h
        obtain ⟨a, ha, hai⟩ := h
        have := ih a ha
        simp only [List.length_cons]
        omega

theorem getD_mem_of_lt {α : Type} (l : List α) (i : ℕ) (d : α)
    (h : i < l.length) : l.getD i d ∈ l := by
  rw [List.getD_eq_getElem?_getD, List.getElem?_eq_getElem h]
  exact List.getElem_mem h

theorem hasTracks_iff (p : PlayerM) : hasTracks p = true ↔ p.tracks ≠ [] := by
  unfold hasTracks
  simp

theorem make_shuffled_order_length (len current : ℕ) (rand : ℕ → ℕ)
    (h : current < len) :
    (make_shuffled_order len current rand).length = len := by
  rw [(make_shuffled_order_perm len current rand h).length_eq,
    List.length_range]

theorem navFull_of_fields (p q : PlayerM) (ht : q.tracks = p.tracks)
    (hc : q.current = p.current) (hs : q.selected = p.selected)
    (hsh : q.shuffle = p.shuffle) (ho : q.playOrder = p.playOrder)
    (hpp : q.playPos = p.playPos) (h : navInvariantFull p) :
    navInvariantFull q := by
  unfold navInvariantFull navInvariant at h ⊢
  rw [ht, hc, hs, hsh, ho, hpp]
  exact h

theorem navFull_startTrack (p : PlayerM) (s n : ℕ) (m : TrackMetaM)
    (o : Option (Option ℕ)) (h : navInvariantFull p) :
    navInvariantFull (startTrack p s n m o).2.1 := by
  unfold startTrack
  cases p.tracks[p.current]? with
  | none => exact h
  | some track =>
      cases o with
      | none => exact h
      | some total => exact navFull_of_fields p _ rfl rfl rfl rfl rfl rfl h


theorem toggleShuffle_empty (p : PlayerM) (rand : ℕ → ℕ)
    (he : p.tracks = []) :
    toggleShuffle p rand =
      { p with shuffle := false, playOrder := [], playPos := 0 } := by
  unfold toggleShuffle hasTracks
  simp [he]

theorem toggleShuffle_on (p : PlayerM) (rand : ℕ → ℕ)
    (hne : p.tracks ≠ []) (hsh : p.shuffle = false) :
    toggleShuffle p rand =
      { p with
          shuffle := true,
          playOrder := make_shuffled_order p.tracks.length p.current rand,
          playPos := 0 } := by
  unfold toggleShuffle hasTracks
  simp [hne, hsh]

theorem toggleShuffle_off (p : PlayerM) (rand : ℕ → ℕ)
    (hne : p.tracks ≠ []) (hsh : p.shuffle = true) :
    toggleShuffle p rand =
      { p with
          shuffle := false,
          playOrder := List.range p.tracks.length,
          playPos := p.current } := by
  unfold toggleShuffle hasTracks
  simp [hne, hsh]

theorem navFull_toggleShuffle (p : PlayerM) (rand : ℕ → ℕ)
    (h : navInvariantFull p) : navInvariantFull (toggleShuffle p rand) := by
  by_cases he : p.tracks = []
  · rw [toggleShuffle_empty p rand he]
    obtain ⟨hc0, hs0, _, _, _⟩ := h.2 he
    unfold navInvariantFull navInvariant
    dsimp only
    exact ⟨fun hne => absurd he hne, fun _ => ⟨hc0, hs0, rfl, rfl, rfl⟩⟩
  · obtain ⟨hcur, hsel, hperm, hpos⟩ := h.1 he
    have hlen : 0 < p.tracks.length := List.length_pos.mpr he
    cases hsh : p.shuffle with
    | false =>
        rw [toggleShuffle_on p rand he hsh]
        unfold navInvariantFull navInvariant
        dsimp only
        refine ⟨fun _ => ⟨hcur, hsel, ?_, ?_⟩, fun hemp => absurd hemp he⟩
        · exact make_shuffled_order_perm _ _ rand hcur
        · rw [make_shuffled_order_length _ _ rand hcur]
          exact hlen
    | true =>
        rw [toggleShuffle_off p rand he hsh]
        unfold navInvariantFull navInvariant
        dsimp only
        refine ⟨fun _ => ⟨hcur, hsel, List.Perm.refl _, ?_⟩,
          fun hemp => absurd hemp he⟩
        simpa using hcur

theorem navFull_syncPlayPos (p : PlayerM) (h : navInvariantFull p) :
    navInvariantFull (syncPlayPos p) := by
  unfold syncPlayPos
  cases hf : p.playOrder.findIdx? (fun i => i = p.current) with
  | none => exact h
  | some pos =>
      have hlt : pos < p.playOrder.length := findIdx?_some_lt _ _ _ hf
      unfold navInvariantFull navInvariant at h ⊢
      dsimp only
      refine ⟨fun hne => ⟨(h.1 hne).1, (h.1 hne).2.1, (h.1 hne).2.2.1,
        hlt⟩, fun hemp => ?_⟩
      have hpo := (h.2 hemp).2.2.2.1
      rw [hpo] at hf
      simp [List.findIdx?] at hf

theorem navFull_nextTrack (p : PlayerM) (n : ℕ) (m : TrackMetaM)
    (o : Option (Option ℕ)) (h : navInvariantFull p) :
    navInvariantFull (nextTrack p n m o).2.1 := by
  by_cases he : p.tracks = []
  · have heq : nextTrack p n m o = (Except.ok (), p, []) := by
      unfold nextTrack hasTracks
      simp [he]
    rw [heq]
    exact h
  · have heq : nextTrack p n m o = startTrack
        { p with
            playPos := (p.playPos + 1) % p.playOrder.length,
            current :=
              p.playOrder.getD ((p.playPos + 1) % p.playOrder.length) 0,
            selected :=
              p.playOrder.getD ((p.playPos + 1) % p.playOrder.length) 0 }
        0 n m o := by
      unfold nextTrack hasTracks
      simp [he]
    rw [heq]
    apply navFull_startTrack
    obtain ⟨hcur, hsel, hperm, hpos⟩ := h.1 he
    have hlen : 0 < p.tracks.length := List.length_pos.mpr he
    have holen : p.playOrder.length = p.tracks.length := by
      simpa using hperm.length_eq
    have hpos' : (p.playPos + 1) % p.playOrder.length <
        p.playOrder.length := Nat.mod_lt _ (by omega)
    have hmem : p.playOrder.getD ((p.playPos + 1) % p.playOrder.length) 0 ∈
        p.playOrder := getD_mem_of_lt _ _ _ hpos'
    have hcur' : p.playOrder.getD ((p.playPos + 1) % p.playOrder.length) 0 <
        p.tracks.length := by
      have := hperm.mem_iff.mp hmem
      simpa [List.mem_range] using this
    unfold navInvariantFull navInvariant
    dsimp only
    exact ⟨fun _ => ⟨hcur', hcur', hperm, hpos'⟩,
      fun hemp => absurd hemp he⟩

theorem navFull_prevTrack (p : PlayerM) (n : ℕ) (m : TrackMetaM)
    (o : Option (Option ℕ)) (h : navInvariantFull p) :
    navInvariantFull (prevTrack p n m o).2.1 := by
  by_cases he : p.tracks = []
  · have heq : prevTrack p n m o = (Except.ok (), p, []) := by
      unfold prevTrack hasTracks
      simp [he]
    rw [heq]
    exact h
  · have heq : prevTrack p n m o = startTrack
        { p with
            playPos :=
              (p.playPos + p.playOrder.length - 1) % p.playOrder.length,
            current := p.playOrder.getD
              ((p.playPos + p.playOrder.length - 1) %
                p.playOrder.length) 0,
            selected := p.playOrder.getD
              ((p.playPos + p.playOrder.length - 1) %
                p.playOrder.length) 0 }
        0 n m o := by
      unfold prevTrack hasTracks
      simp [he]
    rw [heq]
    apply navFull_startTrack
    obtain ⟨hcur, hsel, hperm, hpos⟩ := h.1 he
    have hlen : 0 < p.tracks.length := List.length_pos.mpr he
    have holen : p.playOrder.length = p.tracks.length := by
      simpa using hperm.length_eq
    have hpos' : (p.playPos + p.playOrder.length - 1) %
        p.playOrder.length < p.playOrder.length := Nat.mod_lt _ (by omega)
    have hmem : p.playOrder.getD
        ((p.playPos + p.playOrder.length - 1) % p.playOrder.length) 0 ∈
        p.playOrder := getD_mem_of_lt _ _ _ hpos'
    have hcur' : p.playOrder.getD
        ((p.playPos + p.playOrder.length - 1) % p.playOrder.length) 0 <
        p.tracks.length := by
      have := hperm.mem_iff.mp hmem
      simpa [List.mem_range] using this
    unfold navInvariantFull navInvariant
    dsimp only
    exact ⟨fun _ => ⟨hcur', hcur', hperm, hpos'⟩,
      fun hemp => absurd hemp he⟩

theorem navFull_playSelected (p : PlayerM) (n : ℕ) (m : TrackMetaM)
    (o : Option (Option ℕ)) (h : navInvariantFull p) :
    navInvariantFull (playSelected p n m o).2.1 := by
  by_cases he : p.tracks = []
  · have heq : playSelected p n m o = (Except.ok (), p, []) := by
      unfold playSelected hasTracks
      simp [he]
    rw [heq]
    exact h
  · have heq : playSelected p n m o =
        startTrack (syncPlayPos { p with current := p.selected })
          0 n m o := by
      unfold playSelected hasTracks
      simp [he]
    rw [heq]
    apply navFull_startTrack
    apply navFull_syncPlayPos
    unfold navInvariantFull navInvariant at h ⊢
    dsimp only
    exact ⟨fun hne => ⟨(h.1 hne).2.1, (h.1 hne).2.1, (h.1 hne).2.2⟩,
      fun hemp => ⟨(h.2 hemp).2.1, (h.2 hemp).2.1, (h.2 hemp).2.2.1,
        (h.2 hemp).2.2.2.1, (h.2 hemp).2.2.2.2⟩⟩
theorem navFull_mk_shuffled (q : PlayerM) (rand : ℕ → ℕ)
    (hne : q.tracks ≠ []) (hc : q.current < q.tracks.length)
    (hs : q.selected < q.tracks.length)
    (ho : q.playOrder = make_shuffled_order q.tracks.length q.current rand)
    (hpp : q.playPos = 0) : navInvariantFull q := by
  unfold navInvariantFull navInvariant
  rw [ho, hpp]
  refine ⟨fun _ => ⟨hc, hs, make_shuffled_order_perm _ _ rand hc, ?_⟩,
    fun hemp => absurd hemp hne⟩
  rw [make_shuffled_order_length _ _ rand hc]
  exact List.length_pos.mpr hne

theorem navFull_mk_range (q : PlayerM)
    (hne : q.tracks ≠ []) (hc : q.current < q.tracks.length)
    (hs : q.selected < q.tracks.length)
    (ho : q.playOrder = List.range q.tracks.length)
    (hpp : q.playPos = q.current) : navInvariantFull q := by
  unfold navInvariantFull navInvariant
  rw [ho, hpp]
  refine ⟨fun _ => ⟨hc, hs, List.Perm.refl _, ?_⟩,
    fun hemp => absurd hemp hne⟩
  simpa using hc

theorem navFull_deleteSelected (p : PlayerM) (removeOk : Bool)
    (rand : ℕ → ℕ) (n : ℕ) (m : TrackMetaM) (o : Option (Option ℕ))
    (h : navInvariantFull p) :
    navInvariantFull (deleteSelected p removeOk rand n m o).2.1 := by
  by_cases he : p.tracks = []
  · have heq : deleteSelected p removeOk rand n m o =
        (Except.ok (), p, []) := by
      unfold deleteSelected hasTracks
      simp [he]
    rw [heq]
    exact h
  · obtain ⟨hcur, hsel, hperm, hpos⟩ := h.1 he
    have hlen : 0 < p.tracks.length := List.length_pos.mpr he
    have hie : p.tracks.isEmpty = false := by simp [he]
    have hlen' : (p.tracks.eraseIdx p.selected).length =
        p.tracks.length - 1 := List.length_eraseIdx_of_lt hsel
    obtain ⟨x, hget⟩ : ∃ x, p.tracks[p.selected]? = some x := by
      rw [List.getElem?_eq_getElem hsel]
      exact ⟨_, rfl⟩
    by_cases hro : removeOk = true
    swap
    · have hro' : removeOk = false := by
        cases removeOk
        · rfl
        · exact absurd rfl hro
      have heq : deleteSelected p removeOk rand n m o =
          (Except.error (), p, []) := by
        unfold deleteSelected hasTracks
        rw [hro']
        simp [hie, hget]
      rw [heq]
      exact h
    · unfold deleteSelected hasTracks
      by_cases hni : (p.tracks.eraseIdx p.selected).isEmpty
      · -- the list becomes empty: everything is reset
        by_cases hdc : p.selected = p.current
        · have hdc' : (p.selected == p.current) = true := by simp [hdc]
          simp only [hie, hget, hro, hdc', hni, Bool.not_false,
            Bool.not_true, Bool.false_eq_true, eq_self_iff_true, if_true,
            if_false]
          unfold navInvariantFull navInvariant
          dsimp only
          exact ⟨fun hne => absurd (List.isEmpty_iff.mp hni) hne,
            fun _ => ⟨rfl, rfl, rfl, rfl, rfl⟩⟩
        · have hdc' : (p.selected == p.current) = false := by simp [hdc]
          simp only [hie, hget, hro, hdc', hni, Bool.not_false,
            Bool.not_true, Bool.false_eq_true, eq_self_iff_true, if_true,
            if_false]
          unfold navInvariantFull navInvariant
          dsimp only
          exact ⟨fun hne => absurd (List.isEmpty_iff.mp hni) hne,
            fun _ => ⟨rfl, rfl, rfl, rfl, rfl⟩⟩
      · have hni' : (p.tracks.eraseIdx p.selected).isEmpty = false := by
          cases hh : (p.tracks.eraseIdx p.selected).isEmpty
          · rfl
          · exact absurd hh hni
        have hne' : p.tracks.eraseIdx p.selected ≠ [] := by
          intro hcon
          exact hni (by simp [hcon])
        have hlen2 : 0 < (p.tracks.eraseIdx p.selected).length :=
          List.length_pos.mpr hne'
        have hminc : p.selected ⊓ ((p.tracks.eraseIdx p.selected).length - 1)
            < (p.tracks.eraseIdx p.selected).length :=
          lt_of_le_of_lt (min_le_right _ _) (by omega)
        by_cases hdc : p.selected = p.current
        · -- deleting the current track: current := min idx (len'-1)
          have hdc' : (p.selected == p.current) = true := by simp [hdc]
          by_cases hwa : (p.state == PlayState.playing ||
              p.state == PlayState.paused) = true
          · by_cases hsh : p.shuffle = true
            · simp only [hie, hget, hro, hdc', hni', hwa, hsh,
                Bool.not_false, Bool.not_true, Bool.false_eq_true,
                eq_self_iff_true, if_true, if_false, Bool.true_and]
              apply navFull_startTrack
              exact navFull_mk_shuffled _ rand hne' hminc hminc rfl rfl
            · have hsh' : p.shuffle = false := by
                cases hhh : p.shuffle
                · rfl
                · exact absurd hhh hsh
              simp only [hie, hget, hro, hdc', hni', hwa, hsh',
                Bool.not_false, Bool.not_true, Bool.false_eq_true,
                eq_self_iff_true, if_true, if_false, Bool.true_and]
              apply navFull_startTrack
              exact navFull_mk_range _ hne' hminc hminc rfl rfl
          · have hwa' : (p.state == PlayState.playing ||
                p.state == PlayState.paused) = false := by
              cases hhh : (p.state == PlayState.playing ||
                  p.state == PlayState.paused)
              · rfl
              · exact absurd hhh hwa
            by_cases hsh : p.shuffle = true
            · simp only [hie, hget, hro, hdc', hni', hwa', hsh,
                Bool.not_false, Bool.not_true, Bool.false_eq_true,
                eq_self_iff_true, if_true, if_false, Bool.true_and]
              exact navFull_mk_shuffled _ rand hne' hminc hminc rfl rfl
            · have hsh' : p.shuffle = false := by
                cases hhh : p.shuffle
                · rfl
                · exact absurd hhh hsh
              simp only [hie, hget, hro, hdc', hni', hwa', hsh',
                Bool.not_false, Bool.not_true, Bool.false_eq_true,
                eq_self_iff_true, if_true, if_false, Bool.true_and]
              exact navFull_mk_range _ hne' hminc hminc rfl rfl
        · -- deleting another track
          have hdc' : (p.selected == p.current) = false := by simp [hdc]
          have hsel2 : p.selected ⊓ ((p.tracks.eraseIdx p.selected).length
              - 1) < (p.tracks.eraseIdx p.selected).length := hminc
          by_cases hlt : p.selected < p.current
          · have hc2 : p.current - 1 <
                (p.tracks.eraseIdx p.selected).length := by omega
            by_cases hsh : p.shuffle = true
            · simp only [hie, hget, hro, hdc', hni', hsh, hlt,
                Bool.not_false, Bool.not_true, Bool.false_eq_true,
                eq_self_iff_true, if_true, if_false, Bool.false_and]
              exact navFull_mk_shuffled _ rand hne' hc2 hsel2 rfl rfl
            · have hsh' : p.shuffle = false := by
                cases hhh : p.shuffle
                · rfl
                · exact absurd hhh hsh
              simp only [hie, hget, hro, hdc', hni', hsh', hlt,
                Bool.not_false, Bool.not_true, Bool.false_eq_true,
                eq_self_iff_true, if_true, if_false, Bool.false_and]
              exact navFull_mk_range _ hne' hc2 hsel2 rfl rfl
          · have hc2 : p.current <
                (p.tracks.eraseIdx p.selected).length := by omega
            by_cases hsh : p.shuffle = true
            · simp only [hie, hget, hro, hdc', hni', hsh, hlt,
                Bool.not_false, Bool.not_true, Bool.false_eq_true,
                eq_self_iff_true, if_true, if_false, Bool.false_and]
              exact navFull_mk_shuffled _ rand hne' hc2 hsel2 rfl rfl
            · have hsh' : p.shuffle = false := by
                cases hhh : p.shuffle
                · rfl
                · exact absurd hhh hsh
              simp only [hie, hget, hro, hdc', hni', hsh', hlt,
                Bool.not_false, Bool.not_true, Bool.false_eq_true,
                eq_self_iff_true, if_true, if_false, Bool.false_and]
              exact navFull_mk_range _ hne' hc2 hsel2 rfl rfl

theorem navFull_refreshTracks (p : PlayerM) (fresh : Option (List ℕ))
    (rand : ℕ → ℕ) (h : navInvariantFull p) :
    navInvariantFull (refreshTracks p fresh rand) := by
  cases fresh with
  | none => exact h
  | some fr =>
      by_cases hta : (fr.filter (fun t => !p.tracks.contains t)).isEmpty
      · have heq : refreshTracks p (some fr) rand = p := by
          unfold refreshTracks
          simp only [hta, if_true]
        rw [heq]
        exact h
      · have hta' : (fr.filter (fun t => !p.tracks.contains t)).isEmpty
            = false := by
          cases hhh : (fr.filter (fun t => !p.tracks.contains t)).isEmpty
          · rfl
          · exact absurd hhh hta
        have htne : fr.filter (fun t => !p.tracks.contains t) ≠ [] := by
          intro hcon
          exact hta (by rw [hcon]; rfl)
        have hlen1 : 0 <
            (fr.filter (fun t => !p.tracks.contains t)).length :=
          List.length_pos.mpr htne
        have hlen2 : ((p.tracks ++
            fr.filter (fun t => !p.tracks.contains t)).insertionSort
              (· ≤ ·)).length =
            p.tracks.length +
              (fr.filter (fun t => !p.tracks.contains t)).length := by
          rw [List.length_insertionSort, List.length_append]
        have hne2 : (p.tracks ++
            fr.filter (fun t => !p.tracks.contains t)).insertionSort
              (· ≤ ·) ≠ [] := by
          intro hcon
          have hcl := congrArg List.length hcon
          rw [hlen2] at hcl
          simp only [List.length_nil] at hcl
          omega
        by_cases hsh : p.shuffle = true
        · -- shuffle branch: the list was non-empty before (shuffle is off
          -- in the empty state), so current stays in bounds
          have hne0 : p.tracks ≠ [] := by
            intro hcon
            have := (h.2 hcon).2.2.1
            rw [this] at hsh
            exact Bool.false_ne_true hsh
          obtain ⟨hcur, hsel, hperm, hpos⟩ := h.1 hne0
          have hlen0 : 0 < p.tracks.length := List.length_pos.mpr hne0
          have heq : refreshTracks p (some fr) rand =
              { p with
                  tracks := (p.tracks ++
                    fr.filter (fun t => !p.tracks.contains t)).insertionSort
                      (· ≤ ·),
                  playOrder := make_shuffled_order
                    ((p.tracks ++
                      fr.filter (fun t =>
                        !p.tracks.contains t)).insertionSort (· ≤ ·)).length
                    p.current rand,
                  playPos := 0 } := by
            unfold refreshTracks
            simp only [hta', hsh, Bool.false_eq_true, if_true, if_false,
              ite_true, ite_false]
          rw [heq]
          apply navFull_mk_shuffled _ rand hne2 _ _ rfl rfl
          · show p.current < _
            rw [hlen2]
            omega
          · show p.selected < _
            rw [hlen2]
            omega
        · have hsh' : p.shuffle = false := by
            cases hhh : p.shuffle
            · rfl
            · exact absurd hhh hsh
          have heq : refreshTracks p (some fr) rand =
              syncPlayPos
                { p with
                    tracks := (p.tracks ++
                      fr.filter (fun t =>
                        !p.tracks.contains t)).insertionSort (· ≤ ·),
                    playOrder := List.range ((p.tracks ++
                      fr.filter (fun t =>
                        !p.tracks.contains t)).insertionSort
                        (· ≤ ·)).length } := by
            unfold refreshTracks
            simp only [hta', hsh', Bool.false_eq_true, if_true, if_false,
              ite_true, ite_false]
          rw [heq]
          apply navFull_syncPlayPos
          unfold navInvariantFull navInvariant
          dsimp only
          refine ⟨fun _ => ⟨?_, ?_, List.Perm.refl _, ?_⟩,
            fun hemp => absurd hemp hne2⟩
          · by_cases hne0 : p.tracks = []
            · have := (h.2 hne0).1
              rw [this, hlen2]
              omega
            · have := (h.1 hne0).1
              rw [hlen2]
              omega
          · by_cases hne0 : p.tracks = []
            · have := (h.2 hne0).2.1
              rw [this, hlen2]
              omega
            · have := (h.1 hne0).2.1
              rw [hlen2]
              omega
          · rw [List.length_range, hlen2]
            by_cases hne0 : p.tracks = []
            · have := (h.2 hne0).2.2.2.2
              rw [this]
              omega
            · have h1 := (h.1 hne0).2.2.2
              have h2 : p.playOrder.length = p.tracks.length := by
                simpa using (h.1 hne0).2.2.1.length_eq
              omega

/-- An (unreachable in practice) player state with an empty track list but
a stale nonzero current index: the claim's invariant holds vacuously here,
yet refreshing the library breaks it. -/
def c10CexPlayer : PlayerM :=
  { tracks := [], current := 1, selected := 0, playOrder := [],
    playPos := 0, shuffle := false, state := PlayState.stopped,
    volumeGain := 1, basePos := 0, startedAt := none, pausedAt := none,
    totalPause := 0, totalDuration := none, nowMeta := ⟨0, none⟩,
    loopCurrent := false }

/-- C10 counterexample: the claim's invariant (conditions required only
when the track list is non-empty) is not preserved by every listed
operation: starting from an empty list with a stale `current = 1` —
a state where the invariant holds vacuously — `refresh_tracks` adding one
track yields a one-element list whose current index 1 is out of bounds.
The invariant is only inductive together with an empty-state clause. -/
theorem c10_counterexample :
    navInvariant c10CexPlayer ∧
    ¬ navInvariant (refreshTracks c10CexPlayer (some [7]) (fun _ => 0)) := by
  constructor
  · decide
  · decide

/-- C10 (amended): every Player operation that mutates the track list or
navigation state (`toggle_shuffle`, `next_track`, `prev_track`,
`play_selected`, `delete_selected`, `refresh_tracks`) preserves the
strengthened navigation invariant: whenever the track list is non-empty,
the current and selected indices are strictly below the track-list length,
the play order is a permutation of `0..tracks.len()`, and the play
position is a valid index into the play order; and whenever the track
list is empty, both indices are 0, shuffle is off, the play order is
empty and the play position 0 (the clause the code establishes on every
path that empties the list, and without which the non-empty part alone
is not inductive). -/
theorem c10_nav_invariant_preserved (p : PlayerM) (rand : ℕ → ℕ)
    (now : ℕ) (meta : TrackMetaM) (openResult : Option (Option ℕ))
    (fresh : Option (List ℕ)) (removeOk : Bool)
    (h : navInvariantFull p) :
    navInvariantFull (toggleShuffle p rand) ∧
    navInvariantFull (nextTrack p now meta openResult).2.1 ∧
    navInvariantFull (prevTrack p now meta openResult).2.1 ∧
    navInvariantFull (playSelected p now meta openResult).2.1 ∧
    navInvariantFull
      (deleteSelected p removeOk rand now meta openResult).2.1 ∧
    navInvariantFull (refreshTracks p fresh rand) :=
  ⟨navFull_toggleShuffle p rand h,
   navFull_nextTrack p now meta openResult h,
   navFull_prevTrack p now meta openResult h,
   navFull_playSelected p now meta openResult h,
   navFull_deleteSelected p removeOk rand now meta openResult h,
   navFull_refreshTracks p fresh rand h⟩

/-- A well-formed 4-track player used to witness the invariant theorem. -/
def c10WitnessPlayer : PlayerM :=
  { tracks := [20, 21, 22, 23], current := 1, selected := 3,
    playOrder := [2, 0, 3, 1], playPos := 3, shuffle := false,
    state := PlayState.playing, volumeGain := 1, basePos := 0,
    startedAt := some 0, pausedAt := none, totalPause := 0,
    totalDuration := some 1000, nowMeta := ⟨0, none⟩,
    loopCurrent := false }

/-- C10 witness: the six operations applied to a concrete well-formed
player all preserve the strengthened navigation invariant. -/
theorem c10_nav_invariant_witness :
    navInvariantFull (toggleShuffle c10WitnessPlayer (fun _ => 0)) ∧
    navInvariantFull
      (nextTrack c10WitnessPlayer 5 ⟨0, none⟩ (some (some 1000))).2.1 ∧
    navInvariantFull
      (prevTrack c10WitnessPlayer 5 ⟨0, none⟩ (some (some 1000))).2.1 ∧
    navInvariantFull
      (playSelected c10WitnessPlayer 5 ⟨0, none⟩ (some (some 1000))).2.1 ∧
    navInvariantFull
      (deleteSelected c10WitnessPlayer true (fun _ => 0) 5 ⟨0, none⟩
        (some (some 1000))).2.1 ∧
    navInvariantFull
      (refreshTracks c10WitnessPlayer (some [30]) (fun _ => 0)) :=
  c10_nav_invariant_preserved c10WitnessPlayer (fun _ => 0) 5 ⟨0, none⟩
    (some (some 1000)) (some [30]) true (by decide)
